import Mathlib

/-!
Verification of the spaced-repetition scheduling core of the
`useSupabaseLearning` hook (atom-review-flow).

The embedding models timestamps as integer milliseconds.  The source
truncates a `Date` to midnight via `setHours(0,0,0,0)`; here the timezone
offset is taken as zero, so truncation rounds down to a multiple of
`msPerDay`.  `Math.floor` on the (possibly negative) quotient is `Int.fdiv`.

JavaScript semantics captured explicitly:
* `intervals[currentStep]` with `currentStep` past the end of the array
  yields `undefined`, and `daysDiff >= undefined` is `false`; `isDue`
  models this with `List.get?` and a `none ↦ false` branch.
* `entry.step || 0` is the identity here because `step` is modelled as a
  natural number (a numeric `0` maps to `0` either way).
* the durable write (`supabase…insert` / `…update`) is modelled by an
  explicit success/failure argument; on failure the source returns before
  touching the in-memory list.
* the hook signals outcomes only through `toast` calls; the returned
  promise resolves with `undefined` on every path.  The model therefore
  returns the new list together with the emitted toast (if any).
-/

/-- One completed review event (source interface `Review`); the source
always fills every field when it builds a new review. -/
structure Review where
  date : Int
  questions : List String
  answers : List String
  step : Nat
deriving Repr, DecidableEq

/-- A logged learning entry (source interface `LearningEntry`). -/
structure LearningEntry where
  id : String
  numeroId : Int
  content : String
  context : String
  tags : List String
  createdAt : Int
  step : Nat
  reviews : List Review
deriving Repr, DecidableEq

/-- The toast notifications the two modelled operations can emit. -/
inductive ToastMsg where
  | erroAoSalvar
  | aprendizadoSalvo
  | erroAoSalvarRevisao
  | revisaoConcluida
deriving Repr, DecidableEq

/-- `1000 * 60 * 60 * 24`, the divisor used in `calculateReviewsToday`. -/
def msPerDay : Int := 1000 * 60 * 60 * 24

/-- `d.setHours(0,0,0,0)`: truncate a timestamp to the midnight of its
calendar day (timezone offset taken as zero). -/
def truncMidnight (t : Int) : Int := (Int.fdiv t msPerDay) * msPerDay

/-- `Math.floor((today.getTime() - createdDate.getTime()) / (1000*60*60*24))`
after both dates have been truncated to midnight. -/
def daysDiff (today createdAt : Int) : Int :=
  Int.fdiv (truncMidnight today - truncMidnight createdAt) msPerDay

/-- `const intervals = [1, 3, 7, 14, 30, 60]` (days). -/
def intervals : List Int := [1, 3, 7, 14, 30, 60]

/-- The filter predicate of `calculateReviewsToday`:
`daysDiff >= intervals[currentStep]`, where an out-of-range index yields
`undefined` and the comparison is then `false`. -/
def isDue (today : Int) (entry : LearningEntry) : Bool :=
  match intervals.get? entry.step with
  | some iv => decide (iv ≤ daysDiff today entry.createdAt)
  | none => false

/-- `calculateReviewsToday`: the stable filter of the entry list by the
due predicate, with the reference date passed explicitly (the source reads
the clock at this point). -/
def calculateReviewsToday (entries : List LearningEntry) (today : Int) :
    List LearningEntry :=
  entries.filter (isDue today)

/-- `completeReview`: look the entry up by id (silent return when absent),
advance the step to `min(step + 1, 5)`, append one review carrying the
supplied questions/answers (defaulted to `[]`) and the new step, and —
only when the durable write succeeds — map the update over the list.
Returns the new list and the emitted toast. -/
def completeReview (entries : List LearningEntry) (entryId : String)
    (now : Int) (questions answers : Option (List String)) (writeOk : Bool) :
    List LearningEntry × Option ToastMsg :=
  match entries.find? (fun e => e.id == entryId) with
  | none => (entries, none)
  | some entry =>
    let newStep := Nat.min (entry.step + 1) 5
    let newReview : Review :=
      { date := now, questions := questions.getD [], answers := answers.getD [],
        step := newStep }
    let updatedReviews := entry.reviews ++ [newReview]
    if writeOk then
      (entries.map (fun e =>
          if e.id == entryId
          then { e with step := newStep, reviews := updatedReviews }
          else e),
       some .revisaoConcluida)
    else (entries, some .erroAoSalvarRevisao)

/-- `addLearningEntry`: insert a fresh row (`step = 0`, no reviews,
`data_criacao = now`); on write failure return before touching the list,
on success prepend the entry the store echoes back (its `id` and
`numero_id` are store-assigned, modelled by `writeResult`). -/
def addLearningEntry (entries : List LearningEntry) (content : String)
    (context : Option String) (tags : Option (List String)) (now : Int)
    (writeResult : Option (String × Int)) :
    List LearningEntry × Option ToastMsg :=
  match writeResult with
  | none => (entries, some .erroAoSalvar)
  | some (id, numeroId) =>
      ({ id := id, numeroId := numeroId, content := content,
         context := context.getD "", tags := tags.getD [],
         createdAt := now, step := 0, reviews := [] } :: entries,
       some .aprendizadoSalvo)

/-- Arguments of one `completeReview` call, for iterating the operation. -/
structure CompleteParams where
  entryId : String
  now : Int
  questions : Option (List String)
  answers : Option (List String)
  writeOk : Bool
deriving Repr, DecidableEq

/-- The state component of one `completeReview` call. -/
def completeReviewSt (entries : List LearningEntry) (p : CompleteParams) :
    List LearningEntry :=
  (completeReview entries p.entryId p.now p.questions p.answers p.writeOk).1

/-- A sequence of `completeReview` calls applied in order. -/
def applyCompletions (entries : List LearningEntry)
    (ps : List CompleteParams) : List LearningEntry :=
  ps.foldl completeReviewSt entries

/-- Modelled from the spec wording of the due rule (claim C1): the due
test with the step clamped into the interval table,
`daysDiff ≥ INTERVALS[clamp(step, 0, MAX_STEP)]`.  The source does NOT
clamp; this definition exists to be compared against `isDue`. -/
def isDueSpecClamped (today : Int) (entry : LearningEntry) : Bool :=
  decide (intervals.getD (Nat.min entry.step 5) 0 ≤
    daysDiff today entry.createdAt)

/-- A sample entry created exactly 60 days before time 0, already at the
overflowing step 6; used for concrete instances. -/
def sampleStep6 : LearningEntry :=
  { id := "a", numeroId := 1, content := "c", context := "",
    tags := [], createdAt := -5184000000, step := 6, reviews := [] }

/-- A sample entry at the top step 5, created exactly 60 days before
time 0; used for concrete instances. -/
def sampleStep5 : LearningEntry :=
  { id := "a", numeroId := 1, content := "c", context := "",
    tags := [], createdAt := -5184000000, step := 5, reviews := [] }

/-- A sample fresh entry (step 0, no reviews); used for concrete
instances. -/
def sampleFresh : LearningEntry :=
  { id := "a", numeroId := 1, content := "c", context := "",
    tags := [], createdAt := 0, step := 0, reviews := [] }

/-- A sample entry at step 2, created exactly 7 days before time 0 (the
step-2 interval boundary); used for concrete instances. -/
def sampleBoundary : LearningEntry :=
  { id := "a", numeroId := 1, content := "c", context := "",
    tags := [], createdAt := -604800000, step := 2, reviews := [] }

/-- Sample arguments for one successful `completeReview` call aimed at the
sample entries; used for concrete instances. -/
def sampleParams : CompleteParams :=
  { entryId := "a", now := 0, questions := none, answers := none,
    writeOk := true }

example : daysDiff 0 (-5184000000) = 60 := by decide
example : isDue 0 sampleStep5 = true := by decide
example : isDue 0 sampleStep6 = false := by decide
example : isDueSpecClamped 0 sampleStep6 = true := by decide
example : isDue 0 sampleFresh = false := by decide
example : isDue 86400000 sampleFresh = true := by decide

lemma fdiv_msPerDay_sub_mul (t k : Int) :
    Int.fdiv (t - k * msPerDay) msPerDay = Int.fdiv t msPerDay - k := by
  rw [Int.fdiv_eq_ediv _ (by decide : (0 : Int) ≤ msPerDay),
    Int.fdiv_eq_ediv _ (by decide : (0 : Int) ≤ msPerDay)]
  have h : t - k * msPerDay = t + (-k) * msPerDay := by ring
  rw [h, Int.add_mul_ediv_right _ _ (by decide : msPerDay ≠ 0)]
  ring

lemma truncMidnight_sub_mul (t k : Int) :
    truncMidnight (t - k * msPerDay) = truncMidnight t - k * msPerDay := by
  unfold truncMidnight
  rw [fdiv_msPerDay_sub_mul]
  ring

lemma daysDiff_sub_mul (t k : Int) : daysDiff t (t - k * msPerDay) = k := by
  unfold daysDiff
  rw [truncMidnight_sub_mul]
  have h : truncMidnight t - (truncMidnight t - k * msPerDay) = k * msPerDay := by
    ring
  rw [h, Int.mul_fdiv_cancel _ (by decide : msPerDay ≠ 0)]

lemma fdiv_msPerDay_mono {a b : Int} (h : a ≤ b) :
    Int.fdiv a msPerDay ≤ Int.fdiv b msPerDay := by
  rw [Int.fdiv_eq_ediv _ (by decide : (0 : Int) ≤ msPerDay),
    Int.fdiv_eq_ediv _ (by decide : (0 : Int) ≤ msPerDay)]
  exact Int.ediv_le_ediv (by decide) h

lemma truncMidnight_mono {t t' : Int} (h : t ≤ t') :
    truncMidnight t ≤ truncMidnight t' :=
  mul_le_mul_of_nonneg_right (fdiv_msPerDay_mono h) (by decide)

lemma daysDiff_mono {t t' : Int} (c : Int) (h : t ≤ t') :
    daysDiff t c ≤ daysDiff t' c :=
  fdiv_msPerDay_mono (Int.sub_le_sub_right (truncMidnight_mono h) _)

lemma daysDiff_nonpos {t c : Int} (h : truncMidnight t ≤ truncMidnight c) :
    daysDiff t c ≤ 0 := by
  unfold daysDiff
  calc Int.fdiv (truncMidnight t - truncMidnight c) msPerDay
      ≤ Int.fdiv 0 msPerDay := fdiv_msPerDay_mono (by omega)
    _ = 0 := by decide

lemma intervals_pos {s : Nat} {iv : Int} (h : intervals.get? s = some iv) :
    1 ≤ iv := by
  have hall : ∀ x ∈ intervals, (1 : Int) ≤ x := by decide
  exact hall iv (List.get?_mem h)

lemma intervals_get?_of_le {s : Nat} (h : s ≤ 5) :
    intervals.get? s = some (intervals.getD s 0) := by
  interval_cases s <;> rfl

lemma intervals_get?_eq_none {s : Nat} (h : 5 < s) :
    intervals.get? s = none := by
  apply List.get?_eq_none.mpr
  simp only [intervals, List.length_cons, List.length_nil]
  omega

lemma isDue_eq_true_iff {t : Int} {e : LearningEntry} :
    isDue t e = true ↔
      ∃ iv, intervals.get? e.step = some iv ∧ iv ≤ daysDiff t e.createdAt := by
  unfold isDue
  cases h : intervals.get? e.step <;> simp [h]

lemma mem_calculateReviewsToday {entries : List LearningEntry} {t : Int}
    {e : LearningEntry} :
    e ∈ calculateReviewsToday entries t ↔ e ∈ entries ∧ isDue t e = true := by
  unfold calculateReviewsToday
  exact List.mem_filter

/-- C10: an entry whose `step` indexes past the end of the interval table
(`step > MAX_STEP = 5`) is never due: the out-of-range lookup makes the due
test `false` (total, no error), so the due-set computation excludes it. -/
theorem step_overflow_never_due (entries : List LearningEntry) (t : Int)
    (e : LearningEntry) (h : 5 < e.step) :
    isDue t e = false ∧ e ∉ calculateReviewsToday entries t := by
  have hd : isDue t e = false := by
    unfold isDue
    rw [intervals_get?_eq_none h]
  refine ⟨hd, fun hmem => ?_⟩
  have := (mem_calculateReviewsToday.mp hmem).2
  rw [hd] at this
  cases this

/-- Witness for C10 at a concrete entry with step 6. -/
theorem step_overflow_never_due_witness :
    5 < sampleStep6.step ∧
      (isDue 0 sampleStep6 = false ∧
        sampleStep6 ∉ calculateReviewsToday [sampleStep6] 0) :=
  ⟨by decide, step_overflow_never_due [sampleStep6] 0 sampleStep6 (by decide)⟩

/-- C5: an entry whose `createdAt`, truncated to its calendar day, is on or
after `today`'s calendar day (including future-dated entries, where
`daysDiff` is negative) is never in the due set: `daysDiff ≤ 0` is below
every interval threshold (all are ≥ 1). -/
theorem not_due_before_creation_day (entries : List LearningEntry) (t : Int)
    (e : LearningEntry) (h : truncMidnight t ≤ truncMidnight e.createdAt) :
    e ∉ calculateReviewsToday entries t := by
  intro hmem
  have hd := (mem_calculateReviewsToday.mp hmem).2
  obtain ⟨iv, hget, hle⟩ := isDue_eq_true_iff.mp hd
  have h1 : 1 ≤ iv := intervals_pos hget
  have h0 : daysDiff t e.createdAt ≤ 0 := daysDiff_nonpos h
  omega

/-- Witness for C5 at a concrete same-day entry. -/
theorem not_due_before_creation_day_witness :
    truncMidnight 0 ≤ truncMidnight sampleFresh.createdAt ∧
      sampleFresh ∉ calculateReviewsToday [sampleFresh] 0 :=
  ⟨by decide, not_due_before_creation_day [sampleFresh] 0 sampleFresh (by decide)⟩

/-- C4: for a step `s` within the table, an entry whose `createdAt` lies
exactly `INTERVALS[s]` whole days before `today` is in the due set, and the
same entry created `INTERVALS[s] - 1` days before is not. -/
theorem due_boundary_at_interval (entries : List LearningEntry) (t : Int)
    (e : LearningEntry) (iv : Int) (hget : intervals.get? e.step = some iv)
    (hmem : e ∈ entries) :
    (e.createdAt = t - iv * msPerDay → e ∈ calculateReviewsToday entries t) ∧
      (e.createdAt = t - (iv - 1) * msPerDay →
        e ∉ calculateReviewsToday entries t) := by
  constructor
  · intro hc
    refine mem_calculateReviewsToday.mpr ⟨hmem, isDue_eq_true_iff.mpr ⟨iv, hget, ?_⟩⟩
    rw [hc, daysDiff_sub_mul]
  · intro hc hin
    have hd := (mem_calculateReviewsToday.mp hin).2
    obtain ⟨iv', hget', hle⟩ := isDue_eq_true_iff.mp hd
    rw [hget] at hget'
    injection hget' with h'
    subst h'
    rw [hc, daysDiff_sub_mul] at hle
    omega

/-- Witness for C4 at step 2 (interval 7 days). -/
theorem due_boundary_at_interval_witness :
    intervals.get? sampleBoundary.step = some 7 ∧ sampleBoundary ∈ [sampleBoundary] ∧
      ((sampleBoundary.createdAt = 0 - 7 * msPerDay →
          sampleBoundary ∈ calculateReviewsToday [sampleBoundary] 0) ∧
        (sampleBoundary.createdAt = 0 - (7 - 1) * msPerDay →
          sampleBoundary ∉ calculateReviewsToday [sampleBoundary] 0)) :=
  ⟨by decide, by decide,
    due_boundary_at_interval [sampleBoundary] 0 sampleBoundary 7 (by decide) (by decide)⟩

/-- C1 counterexample: at step 6 the clamped-lookup formula of the claim
says "due" (60 ≤ 60 = INTERVALS[5]) but the code's due set excludes the
entry (the unclamped lookup is out of range, hence false). -/
theorem isDue_clamped_spec_counterexample :
    sampleStep6 ∈ [sampleStep6] ∧ isDueSpecClamped 0 sampleStep6 = true ∧
      sampleStep6 ∉ calculateReviewsToday [sampleStep6] 0 := by
  refine ⟨by decide, by decide, ?_⟩
  intro h
  have := (mem_calculateReviewsToday.mp h).2
  revert this
  decide

/-- C1 (amended): the due set includes an entry iff `step ≤ MAX_STEP = 5`
AND `daysDiff ≥ INTERVALS[step]` — the step is not clamped, and an entry
whose step exceeds the table is never due. -/
theorem mem_calculateReviewsToday_iff (entries : List LearningEntry)
    (e : LearningEntry) (t : Int) (hmem : e ∈ entries) :
    e ∈ calculateReviewsToday entries t ↔
      e.step ≤ 5 ∧ intervals.getD e.step 0 ≤ daysDiff t e.createdAt := by
  rw [mem_calculateReviewsToday]
  constructor
  · rintro ⟨-, hd⟩
    obtain ⟨iv, hget, hle⟩ := isDue_eq_true_iff.mp hd
    have hs : e.step ≤ 5 := by
      by_contra hlt
      rw [intervals_get?_eq_none (by omega)] at hget
      cases hget
    refine ⟨hs, ?_⟩
    rw [intervals_get?_of_le hs] at hget
    injection hget with h'
    omega
  · rintro ⟨hs, hle⟩
    exact ⟨hmem, isDue_eq_true_iff.mpr ⟨_, intervals_get?_of_le hs, hle⟩⟩

/-- Witness for the amended C1 at a concrete entry. -/
theorem mem_calculateReviewsToday_iff_witness :
    sampleStep5 ∈ [sampleStep5] ∧
      (sampleStep5 ∈ calculateReviewsToday [sampleStep5] 0 ↔
        sampleStep5.step ≤ 5 ∧
          intervals.getD sampleStep5.step 0 ≤ daysDiff 0 sampleStep5.createdAt) :=
  ⟨by decide, mem_calculateReviewsToday_iff [sampleStep5] sampleStep5 0 (by decide)⟩

lemma completeReviewSt_none {st : List LearningEntry} {p : CompleteParams}
    (hf : st.find? (fun a => a.id == p.entryId) = none) :
    completeReviewSt st p = st := by
  simp only [completeReviewSt, completeReview, hf]

lemma completeReviewSt_fail {st : List LearningEntry} {p : CompleteParams}
    (hw : p.writeOk = false) : completeReviewSt st p = st := by
  unfold completeReviewSt completeReview
  cases hf : st.find? (fun a => a.id == p.entryId) with
  | none => rfl
  | some f => simp [hw]

lemma completeReviewSt_found_ok {st : List LearningEntry}
    {p : CompleteParams} {f : LearningEntry}
    (hf : st.find? (fun a => a.id == p.entryId) = some f)
    (hw : p.writeOk = true) :
    completeReviewSt st p = st.map (fun a =>
      if a.id == p.entryId then
        { a with
          step := Nat.min (f.step + 1) 5
          reviews := f.reviews ++
            [{ date := p.now, questions := p.questions.getD [],
               answers := p.answers.getD [],
               step := Nat.min (f.step + 1) 5 }] }
      else a) := by
  simp only [completeReviewSt, completeReview, hf, hw, if_true]

/-- C2: completing a review on an entry present in the store (identifiers
unique, durable write succeeding) replaces exactly the matching entry by
one with `step = min(old step + 1, 5)` and `reviews` equal to the prior
sequence with exactly one review appended, the new review carrying the
supplied questions/answers (defaulted to `[]`) and the new step; `id` and
`createdAt` are unchanged, and non-matching entries are untouched. -/
theorem completeReview_found_spec (entries : List LearningEntry)
    (e : LearningEntry) (now : Int) (qs as : Option (List String))
    (hmem : e ∈ entries) (huniq : ∀ a ∈ entries, a.id = e.id → a = e) :
    ∃ e', (completeReview entries e.id now qs as true).1 =
        entries.map (fun a => if a.id == e.id then e' else a) ∧
      e'.id = e.id ∧ e'.createdAt = e.createdAt ∧
      e'.step = Nat.min (e.step + 1) 5 ∧
      e'.reviews = e.reviews ++
        [{ date := now, questions := qs.getD [], answers := as.getD [],
           step := Nat.min (e.step + 1) 5 }] := by
  cases hf : entries.find? (fun a => a.id == e.id) with
  | none =>
      exact absurd (List.find?_eq_none.mp hf e hmem) (by simp)
  | some f =>
      have hp : f.id = e.id := by
        have := List.find?_some hf
        simpa using this
      have hfe : f = e := huniq f (List.mem_of_find?_eq_some hf) hp
      subst hfe
      refine ⟨{ f with
                step := Nat.min (f.step + 1) 5
                reviews := f.reviews ++
                  [{ date := now, questions := qs.getD [],
                     answers := as.getD [],
                     step := Nat.min (f.step + 1) 5 }] },
        ?_, rfl, rfl, rfl, rfl⟩
      simp only [completeReview, hf, if_true]
      apply List.map_congr_left
      intro a ha
      by_cases hid : a.id = f.id
      · have haf : a = f := huniq a ha hid
        subst haf
        rfl
      · have hb : (a.id == f.id) = false := by simp [hid]
        rw [if_neg (by simp [hb]), if_neg (by simp [hb])]

/-- Witness for C2 at a concrete singleton store. -/
theorem completeReview_found_spec_witness :
    sampleFresh ∈ [sampleFresh] ∧
      (∀ a ∈ [sampleFresh], a.id = sampleFresh.id → a = sampleFresh) ∧
      ∃ e', (completeReview [sampleFresh] sampleFresh.id 0 none none true).1 =
          [sampleFresh].map (fun a => if a.id == sampleFresh.id then e' else a) ∧
        e'.id = sampleFresh.id ∧ e'.createdAt = sampleFresh.createdAt ∧
        e'.step = Nat.min (sampleFresh.step + 1) 5 ∧
        e'.reviews = sampleFresh.reviews ++
          [{ date := 0, questions := [], answers := [],
             step := Nat.min (sampleFresh.step + 1) 5 }] :=
  ⟨by decide, by decide,
    completeReview_found_spec [sampleFresh] sampleFresh 0 none none
      (by decide) (by decide)⟩

/-- C7 counterexample: on an unknown identifier the operation returns the
store unchanged and surfaces nothing at all — no toast, no error value —
so no `NotFound` condition reaches the caller. -/
theorem completeReview_notFound_silent_counterexample :
    completeReview [sampleFresh] "b" 0 none none true = ([sampleFresh], none) := by
  decide

/-- C7 (amended): on an identifier absent from the store, `completeReview`
performs no mutation and silently returns: the collection is unchanged and
no condition of any kind (not even a toast) is surfaced. -/
theorem completeReview_notFound_no_mutation (entries : List LearningEntry)
    (eid : String) (now : Int) (qs as : Option (List String)) (wk : Bool)
    (h : entries.find? (fun e => e.id == eid) = none) :
    completeReview entries eid now qs as wk = (entries, none) := by
  simp only [completeReview, h]

/-- Witness for the amended C7 at a concrete store. -/
theorem completeReview_notFound_no_mutation_witness :
    [sampleFresh].find? (fun e => e.id == "b") = none ∧
      completeReview [sampleFresh] "b" 0 none none true = ([sampleFresh], none) :=
  ⟨by decide,
    completeReview_notFound_no_mutation [sampleFresh] "b" 0 none none true
      (by decide)⟩

/-- C8: when the durable write fails, neither operation mutates the
in-memory collection: creation adds no entry, completion advances no step
and appends no review. -/
theorem failed_write_no_mutation :
    (∀ (entries : List LearningEntry) content context tags now,
        (addLearningEntry entries content context tags now none).1 = entries) ∧
      ∀ (entries : List LearningEntry) eid now qs as,
        (completeReview entries eid now qs as false).1 = entries := by
  constructor
  · intro entries content context tags now
    rfl
  · intro entries eid now qs as
    cases hf : entries.find? (fun e => e.id == eid) with
    | none => simp [completeReview, hf]
    | some f => simp [completeReview, hf]

/-- C9 counterexample: a creation call with empty content is not rejected —
with a successful write it creates an entry whose content is empty and
emits the ordinary success toast, refuting "no entry with empty content is
ever created". -/
theorem addLearningEntry_empty_content_counterexample :
    addLearningEntry [] "" none none 0 (some ("id1", 1)) =
      ([{ id := "id1", numeroId := 1, content := "", context := "",
          tags := [], createdAt := 0, step := 0, reviews := [] }],
       some ToastMsg.aprendizadoSalvo) := rfl

/-- C9 (amended): entry creation performs no input validation: a call with
empty content is never rejected, and whenever the durable write succeeds
it prepends an entry with empty content (step 0, no reviews) and reports
success. -/
theorem addLearningEntry_empty_content_inserted (entries : List LearningEntry)
    (context : Option String) (tags : Option (List String)) (now : Int)
    (id : String) (numeroId : Int) :
    addLearningEntry entries "" context tags now (some (id, numeroId)) =
      ({ id := id, numeroId := numeroId, content := "",
         context := context.getD "", tags := tags.getD [],
         createdAt := now, step := 0, reviews := [] } :: entries,
       some ToastMsg.aprendizadoSalvo) := rfl

lemma completeReviewSt_preserves_top (st : List LearningEntry)
    (p : CompleteParams) (e : LearningEntry) (hmem : e ∈ st)
    (huniq : ∀ a ∈ st, a.id = e.id → a = e) (hstep : e.step = 5) :
    ∃ e', e' ∈ completeReviewSt st p ∧ e'.id = e.id ∧
      e'.createdAt = e.createdAt ∧ e'.step = 5 ∧
      ∀ a ∈ completeReviewSt st p, a.id = e.id → a = e' := by
  by_cases hw : p.writeOk = true
  · cases hf : st.find? (fun a => a.id == p.entryId) with
    | none =>
        rw [completeReviewSt_none hf]
        exact ⟨e, hmem, rfl, rfl, hstep, huniq⟩
    | some f =>
        rw [completeReviewSt_found_ok hf hw]
        have hfmem := List.mem_of_find?_eq_some hf
        have hfid : f.id = p.entryId := by
          have := List.find?_some hf
          simpa using this
        by_cases hid : e.id = p.entryId
        · have hfe : f = e := huniq f hfmem (hfid.trans hid.symm)
          subst hfe
          refine ⟨{ f with
              step := Nat.min (f.step + 1) 5
              reviews := f.reviews ++
                [{ date := p.now, questions := p.questions.getD [],
                   answers := p.answers.getD [],
                   step := Nat.min (f.step + 1) 5 }] }, ?_, rfl, rfl, ?_, ?_⟩
          · exact List.mem_map.mpr ⟨f, hmem, by simp [hid]⟩
          · have h5 : Nat.min (f.step + 1) 5 = 5 := by
              rw [hstep]
              decide
            exact h5
          · intro a ha haid
            obtain ⟨b, hb, hba⟩ := List.mem_map.mp ha
            by_cases hbid : b.id = p.entryId
            · rw [if_pos (by simp [hbid])] at hba
              have hbe : b = f := huniq b hb (hbid.trans hid.symm)
              rw [← hba, hbe]
            · rw [if_neg (by simp [hbid])] at hba
              subst hba
              exact absurd (haid.trans hid) hbid
        · refine ⟨e, ?_, rfl, rfl, hstep, ?_⟩
          · exact List.mem_map.mpr ⟨e, hmem, by simp [hid]⟩
          · intro a ha haid
            obtain ⟨b, hb, hba⟩ := List.mem_map.mp ha
            by_cases hbid : b.id = p.entryId
            · rw [if_pos (by simp [hbid])] at hba
              have hb2 : b.id = e.id := by
                rw [← hba] at haid
                simpa using haid
              have hbe := huniq b hb hb2
              rw [hbe] at hbid
              exact absurd hbid hid
            · rw [if_neg (by simp [hbid])] at hba
              subst hba
              exact huniq b hb haid
  · have hw' : p.writeOk = false := by simpa using hw
    rw [completeReviewSt_fail hw']
    exact ⟨e, hmem, rfl, rfl, hstep, huniq⟩

lemma applyCompletions_preserves_top (ps : List CompleteParams) :
    ∀ (st : List LearningEntry) (e : LearningEntry), e ∈ st →
      (∀ a ∈ st, a.id = e.id → a = e) → e.step = 5 →
      ∃ e', e' ∈ applyCompletions st ps ∧ e'.id = e.id ∧
        e'.createdAt = e.createdAt ∧ e'.step = 5 ∧
        ∀ a ∈ applyCompletions st ps, a.id = e.id → a = e' := by
  induction ps with
  | nil =>
      intro st e hmem huniq hstep
      exact ⟨e, hmem, rfl, rfl, hstep, huniq⟩
  | cons p ps ih =>
      intro st e hmem huniq hstep
      obtain ⟨e1, hm1, hid1, hca1, hst1, hu1⟩ :=
        completeReviewSt_preserves_top st p e hmem huniq hstep
      have hu1' : ∀ a ∈ completeReviewSt st p, a.id = e1.id → a = e1 :=
        fun a ha haid => hu1 a ha (haid.trans hid1)
      obtain ⟨e2, hm2, hid2, hca2, hst2, hu2⟩ :=
        ih (completeReviewSt st p) e1 hm1 hu1' hst1
      exact ⟨e2, hm2, hid2.trans hid1, hca2.trans hca1, hst2,
        fun a ha haid => hu2 a ha (haid.trans hid1.symm)⟩

/-- C3: an entry at the top step 5 whose elapsed days meet the 60-day
threshold is in the due set, and stays there through any sequence of
further completed reviews and any same-or-later reference date: completion
never moves the `createdAt` anchor and never raises the step past 5. -/
theorem maxStep_entry_stays_due (entries : List LearningEntry)
    (ps : List CompleteParams) (t t' : Int) (e : LearningEntry)
    (hmem : e ∈ entries) (huniq : ∀ a ∈ entries, a.id = e.id → a = e)
    (hstep : e.step = 5) (hdue : 60 ≤ daysDiff t e.createdAt)
    (htt : t ≤ t') :
    e ∈ calculateReviewsToday entries t ∧
      ∃ e', e' ∈ applyCompletions entries ps ∧ e'.id = e.id ∧
        e'.createdAt = e.createdAt ∧ e'.step = 5 ∧
        e' ∈ calculateReviewsToday (applyCompletions entries ps) t' := by
  have hdue1 : isDue t e = true :=
    isDue_eq_true_iff.mpr ⟨60, by rw [hstep]; rfl, hdue⟩
  refine ⟨mem_calculateReviewsToday.mpr ⟨hmem, hdue1⟩, ?_⟩
  obtain ⟨e', hm, hid, hca, hst, -⟩ :=
    applyCompletions_preserves_top ps entries e hmem huniq hstep
  refine ⟨e', hm, hid, hca, hst, ?_⟩
  refine mem_calculateReviewsToday.mpr ⟨hm, ?_⟩
  refine isDue_eq_true_iff.mpr ⟨60, by rw [hst]; rfl, ?_⟩
  rw [hca]
  calc (60 : Int) ≤ daysDiff t e.createdAt := hdue
    _ ≤ daysDiff t' e.createdAt := daysDiff_mono _ htt

/-- Witness for C3 at a concrete singleton store and one completion. -/
theorem maxStep_entry_stays_due_witness :
    sampleStep5 ∈ [sampleStep5] ∧ sampleStep5.step = 5 ∧
      (60 : Int) ≤ daysDiff 0 sampleStep5.createdAt ∧
      (sampleStep5 ∈ calculateReviewsToday [sampleStep5] 0 ∧
        ∃ e', e' ∈ applyCompletions [sampleStep5] [sampleParams] ∧
          e'.id = sampleStep5.id ∧ e'.createdAt = sampleStep5.createdAt ∧
          e'.step = 5 ∧
          e' ∈ calculateReviewsToday
            (applyCompletions [sampleStep5] [sampleParams]) 0) :=
  ⟨by decide, by decide, by decide,
    maxStep_entry_stays_due [sampleStep5] [sampleParams] 0 0 sampleStep5
      (by decide) (by decide) (by decide) (by decide) (by decide)⟩

lemma completeReviewSt_singleton (e : LearningEntry) (p : CompleteParams)
    (hid : p.entryId = e.id) (hw : p.writeOk = true) :
    completeReviewSt [e] p =
      [{ e with
         step := Nat.min (e.step + 1) 5
         reviews := e.reviews ++
           [{ date := p.now, questions := p.questions.getD [],
              answers := p.answers.getD [],
              step := Nat.min (e.step + 1) 5 }] }] := by
  have hf : [e].find? (fun a => a.id == p.entryId) = some e := by
    simp [hid]
  rw [completeReviewSt_found_ok hf hw]
  simp [hid]

lemma nat_min_step_succ (k : Nat) :
    Nat.min (Nat.min k 5 + 1) 5 = Nat.min (k + 1) 5 := by
  simp only [Nat.min_def]
  split_ifs <;> omega

lemma reviews_append_step_invariant (rs : List Review) (r : Review) (k : Nat)
    (hlen : rs.length = k)
    (hsteps : ∀ i (h : i < rs.length), (rs.get ⟨i, h⟩).step = Nat.min (i + 1) 5)
    (hr : r.step = Nat.min (k + 1) 5) :
    ∀ i (h : i < (rs ++ [r]).length),
      ((rs ++ [r]).get ⟨i, h⟩).step = Nat.min (i + 1) 5 := by
  intro i h
  rw [List.get_eq_getElem]
  rcases Nat.lt_or_ge i rs.length with hi | hi
  · rw [List.getElem_append_left hi]
    have hs := hsteps i hi
    rw [List.get_eq_getElem] at hs
    exact hs
  · have hik : i = rs.length := by
      simp only [List.length_append, List.length_cons, List.length_nil] at h
      omega
    rw [List.getElem_concat_length _ _ _ hik, hr, hik, hlen]

lemma applyCompletions_fresh_invariant (ps : List CompleteParams) :
    ∀ (e : LearningEntry) (k : Nat),
      (∀ p ∈ ps, p.entryId = e.id ∧ p.writeOk = true) →
      e.step = Nat.min k 5 → e.reviews.length = k →
      (∀ i (h : i < e.reviews.length),
        (e.reviews.get ⟨i, h⟩).step = Nat.min (i + 1) 5) →
      ∃ e', applyCompletions [e] ps = [e'] ∧ e'.id = e.id ∧
        e'.createdAt = e.createdAt ∧
        e'.step = Nat.min (k + ps.length) 5 ∧
        e'.reviews.length = k + ps.length ∧
        ∀ i (h : i < e'.reviews.length),
          (e'.reviews.get ⟨i, h⟩).step = Nat.min (i + 1) 5 := by
  induction ps with
  | nil =>
      intro e k hps hstep hlen hsteps
      exact ⟨e, rfl, rfl, rfl, by simpa using hstep, by simpa using hlen,
        hsteps⟩
  | cons p ps ih =>
      intro e k hps hstep hlen hsteps
      obtain ⟨hid, hw⟩ := hps p (List.mem_cons_self _ _)
      have happ : applyCompletions [e] (p :: ps) =
          applyCompletions (completeReviewSt [e] p) ps := rfl
      rw [happ, completeReviewSt_singleton e p hid hw]
      obtain ⟨e', ha, hid', hca', hst', hlen', hsteps'⟩ :=
        ih ({ e with
              step := Nat.min (e.step + 1) 5
              reviews := e.reviews ++
                [{ date := p.now, questions := p.questions.getD [],
                   answers := p.answers.getD [],
                   step := Nat.min (e.step + 1) 5 }] })
          (k + 1)
          (fun q hq => by
            have hq2 := hps q (List.mem_cons_of_mem _ hq)
            simpa using hq2)
          (by
            show Nat.min (e.step + 1) 5 = Nat.min (k + 1) 5
            rw [hstep]
            exact nat_min_step_succ k)
          (by
            show (e.reviews ++
              [({ date := p.now, questions := p.questions.getD [],
                  answers := p.answers.getD [],
                  step := Nat.min (e.step + 1) 5 } : Review)]).length = k + 1
            simp [hlen])
          (reviews_append_step_invariant e.reviews
            ({ date := p.now, questions := p.questions.getD [],
               answers := p.answers.getD [],
               step := Nat.min (e.step + 1) 5 } : Review)
            k hlen hsteps (by
              show Nat.min (e.step + 1) 5 = Nat.min (k + 1) 5
              rw [hstep]
              exact nat_min_step_succ k))
      refine ⟨e', ha, hid', hca', ?_, ?_, hsteps'⟩
      · rw [hst']
        have harith : k + 1 + ps.length = k + (ps.length + 1) := by omega
        rw [harith]
        rfl
      · rw [hlen']
        simp only [List.length_cons]
        omega

/-- C6: starting from a fresh entry (step 0, no reviews), any sequence of
`n` successful review completions aimed at the entry yields step
`min(n, 5)` and `n` recorded reviews, the `i`-th (0-based) recording step
`min(i + 1, 5)` — so `1,2,3,4,5` after five completions — and the recorded
steps never decrease along the sequence. -/
theorem iterate_completeReview_fresh (e : LearningEntry)
    (ps : List CompleteParams) (hstep : e.step = 0) (hrev : e.reviews = [])
    (hps : ∀ p ∈ ps, p.entryId = e.id ∧ p.writeOk = true) :
    ∃ e', applyCompletions [e] ps = [e'] ∧
      e'.step = Nat.min ps.length 5 ∧
      e'.reviews.length = ps.length ∧
      (∀ i (h : i < e'.reviews.length),
        (e'.reviews.get ⟨i, h⟩).step = Nat.min (i + 1) 5) ∧
      ∀ i j (hi : i < e'.reviews.length) (hj : j < e'.reviews.length),
        i ≤ j → (e'.reviews.get ⟨i, hi⟩).step ≤ (e'.reviews.get ⟨j, hj⟩).step := by
  obtain ⟨e', h1, -, -, h4, h5, h6⟩ :=
    applyCompletions_fresh_invariant ps e 0 hps (by simpa using hstep)
      (by simp [hrev])
      (by
        intro i h
        rw [hrev] at h
        exact absurd h (by simp))
  refine ⟨e', h1, by simpa using h4, by simpa using h5, h6, ?_⟩
  intro i j hi hj hij
  rw [h6 i hi, h6 j hj]
  simp only [Nat.min_def]
  split_ifs <;> omega

/-- Witness for C6 at a concrete fresh entry and one completion. -/
theorem iterate_completeReview_fresh_witness :
    sampleFresh.step = 0 ∧ sampleFresh.reviews = [] ∧
      (∀ p ∈ [sampleParams], p.entryId = sampleFresh.id ∧ p.writeOk = true) ∧
      ∃ e', applyCompletions [sampleFresh] [sampleParams] = [e'] ∧
        e'.step = Nat.min (List.length [sampleParams]) 5 ∧
        e'.reviews.length = List.length [sampleParams] ∧
        (∀ i (h : i < e'.reviews.length),
          (e'.reviews.get ⟨i, h⟩).step = Nat.min (i + 1) 5) ∧
        ∀ i j (hi : i < e'.reviews.length) (hj : j < e'.reviews.length),
          i ≤ j →
            (e'.reviews.get ⟨i, hi⟩).step ≤ (e'.reviews.get ⟨j, hj⟩).step :=
  ⟨rfl, rfl, by decide,
    iterate_completeReview_fresh sampleFresh [sampleParams] rfl rfl (by decide)⟩
